import Mathlib

/-
Verification of the chain-enhance repository: a shallow embedding of the
chain execution engine (payload merge, step-response normalizer, chain
state machine, progress publisher) and of the demo server actions, with
theorems checking the repository's specification against it.

The engine itself ships as a library whose compiled sources are not part
of this repository checkout; its behaviour is modelled from the design
document (sections 4.2 to 4.5 and 6).  The demo server actions in
`src/routes/+page.server.ts` (two variants) are embedded directly from
their TypeScript source.
-/

set_option autoImplicit false

namespace ChainEnhance

/-- A JSON-like value as carried in step payloads: `null`, booleans,
integers, strings, sequences and plain mappings (association lists of
string keys, in insertion order, as JavaScript objects are). -/
inductive JsonValue where
  | null
  | bool (b : Bool)
  | num (n : Int)
  | str (s : String)
  | arr (elems : List JsonValue)
  | obj (fields : List (String × JsonValue))

/-- First value bound to key `k`, as JavaScript property lookup on an
object with unique keys. -/
def lookupKey {α : Type} : List (String × α) → String → Option α
  | [], _ => none
  | (k', v) :: rest, k => if k' = k then some v else lookupKey rest k

/-- Overwrite the binding of key `k` in place (JavaScript `o[k] = v`):
replaces the existing entry, or appends a new one at the end. -/
def setKey {α : Type} : List (String × α) → String → α → List (String × α)
  | [], k, v => [(k, v)]
  | (k', v') :: rest, k, v =>
      if k' = k then (k', v) :: rest else (k', v') :: setKey rest k v

@[simp]
theorem lookupKey_nil {α : Type} (k : String) : lookupKey ([] : List (String × α)) k = none := rfl

theorem lookupKey_cons {α : Type} (k' : String) (v : α) (rest : List (String × α)) (k : String) :
    lookupKey ((k', v) :: rest) k = if k' = k then some v else lookupKey rest k := rfl

@[simp]
theorem lookupKey_setKey_same {α : Type} (l : List (String × α)) (k : String) (v : α) :
    lookupKey (setKey l k v) k = some v := by
  induction l with
  | nil => simp [setKey, lookupKey]
  | cons hd tl ih =>
      obtain ⟨k', v'⟩ := hd
      by_cases h : k' = k
      · simp [setKey, lookupKey, h]
      · simp [setKey, lookupKey, h, ih]

theorem lookupKey_setKey_other {α : Type} (l : List (String × α)) (k k' : String) (v : α)
    (h : k' ≠ k) : lookupKey (setKey l k v) k' = lookupKey l k' := by
  induction l with
  | nil =>
      have hne : ¬ k = k' := fun hh => h hh.symm
      simp [setKey, lookupKey, hne]
  | cons hd tl ih =>
      obtain ⟨k0, v0⟩ := hd
      by_cases h0 : k0 = k
      · subst h0
        have hne : ¬ k0 = k' := fun hh => h hh.symm
        simp [setKey, lookupKey, hne]
      · simp [setKey, lookupKey, h0, ih]

/-- Modelled from the spec: the merge policy selector of the Payload Merge
Engine (missing from this checkout) — `deep` (recursive plain-object
merge) or `shallow` (one-level overwrite), fixed per configuration. -/
inductive MergePolicy where
  | deep
  | shallow

mutual

/-- Modelled from the spec: the deep policy of the Payload Merge Engine
(missing from this checkout) at a single key — when both the existing
value and the new value are plain mappings (not sequences) they are
merged recursively, otherwise the new value replaces the old wholesale. -/
def deepMergeVal (t s : JsonValue) : JsonValue :=
  match t, s with
  | JsonValue.obj tf, JsonValue.obj sf => JsonValue.obj (deepMergeFields tf sf)
  | _, s' => s'
  termination_by sizeOf s
  decreasing_by all_goals (simp_wf; try omega)

/-- Modelled from the spec: the deep policy of the Payload Merge Engine
(missing from this checkout) over whole mappings — starting from a copy
of the target's fields, fold every key of the source in via
`deepMergeVal`. -/
def deepMergeFields (acc src : List (String × JsonValue)) : List (String × JsonValue) :=
  match src with
  | [] => acc
  | (k, v) :: rest =>
      deepMergeFields
        (setKey acc k (match lookupKey acc k with
          | some old => deepMergeVal old v
          | none => v)) rest
  termination_by sizeOf src
  decreasing_by all_goals (simp_wf; try omega)

end

/-- Modelled from the spec: the shallow policy of the Payload Merge
Engine (missing from this checkout) — union of keys, source values
winning on conflict, no recursion. -/
def shallowMergeFields (target source : List (String × JsonValue)) :
    List (String × JsonValue) :=
  source.foldl (fun acc kv => setKey acc kv.1 kv.2) target

/-- Modelled from the spec: the Payload Merge Engine contract
`merge(target, source, policy)` (missing from this checkout). -/
def mergeFields (policy : MergePolicy) (target source : List (String × JsonValue)) :
    List (String × JsonValue) :=
  match policy with
  | MergePolicy.deep => deepMergeFields target source
  | MergePolicy.shallow => shallowMergeFields target source

theorem deepMergeFields_nil_source (target : List (String × JsonValue)) :
    deepMergeFields target [] = target := by
  simp [deepMergeFields]

theorem deepMergeFields_cons (acc : List (String × JsonValue)) (k : String)
    (v : JsonValue) (rest : List (String × JsonValue)) :
    deepMergeFields acc ((k, v) :: rest) =
      deepMergeFields
        (setKey acc k (match lookupKey acc k with
          | some old => deepMergeVal old v
          | none => v)) rest := by
  simp [deepMergeFields]

/-- Merging a source without key `k` leaves the binding of `k` alone. -/
theorem lookupKey_deepMergeFields_not_mem (src : List (String × JsonValue)) :
    ∀ (acc : List (String × JsonValue)) (k : String),
      k ∉ src.map Prod.fst →
      lookupKey (deepMergeFields acc src) k = lookupKey acc k := by
  induction src with
  | nil => intro acc k _; simp [deepMergeFields]
  | cons hd tl ih =>
      intro acc k hk
      obtain ⟨k0, v0⟩ := hd
      simp only [List.map_cons, List.mem_cons] at hk
      push_neg at hk
      rw [deepMergeFields_cons, ih _ _ hk.2]
      exact lookupKey_setKey_other acc k0 k _ hk.1

/-- The per-key result the specification prescribes for the deep policy:
when both the existing value in the target and the new value are plain
mappings (not sequences), their recursive deep merge; otherwise the
source's value wholesale. -/
def mergeSpecAt (old : Option JsonValue) (v : JsonValue) : JsonValue :=
  match old, v with
  | some (JsonValue.obj tf), JsonValue.obj sf => JsonValue.obj (deepMergeFields tf sf)
  | _, _ => v

theorem deepMergeVal_option_eq (old : Option JsonValue) (v : JsonValue) :
    (match old with
      | some o => deepMergeVal o v
      | none => v) = mergeSpecAt old v := by
  cases old with
  | none => cases v <;> rfl
  | some o => cases o <;> cases v <;> simp [deepMergeVal, mergeSpecAt]

/-- Claim C3: for every target and source payload (source keys unique, as
JavaScript object keys are), merge under the deep policy maps each key of
the source to the recursive deep merge when both sides hold plain
mappings, and to the source's value wholesale otherwise. -/
theorem claim3_deep_merge_per_key (source : List (String × JsonValue)) :
    ∀ (target : List (String × JsonValue)) (k : String) (v : JsonValue),
      (source.map Prod.fst).Nodup →
      lookupKey source k = some v →
      lookupKey (mergeFields MergePolicy.deep target source) k =
        some (mergeSpecAt (lookupKey target k) v) := by
  induction source with
  | nil => intro target k v _ hk; simp [lookupKey] at hk
  | cons hd rest ih =>
      intro target k v hnd hk
      obtain ⟨k0, v0⟩ := hd
      simp only [List.map_cons, List.nodup_cons] at hnd
      rw [lookupKey_cons] at hk
      show lookupKey (deepMergeFields target ((k0, v0) :: rest)) k = _
      rw [deepMergeFields_cons]
      by_cases h0 : k0 = k
      · subst h0
        obtain rfl : v0 = v := Option.some.inj (by simpa [if_pos rfl] using hk)
        rw [lookupKey_deepMergeFields_not_mem rest _ _ hnd.1,
          lookupKey_setKey_same, deepMergeVal_option_eq]
      · rw [if_neg h0] at hk
        have := ih (setKey target k0 (match lookupKey target k0 with
          | some old => deepMergeVal old v0
          | none => v0)) k v hnd.2 hk
        rw [mergeFields] at this
        rw [this, lookupKey_setKey_other target k0 k _ (fun hh => h0 hh.symm)]

/-- Concrete instance of claim C3: nested mappings merge recursively and
a scalar key is replaced by the source's value. -/
theorem claim3_deep_merge_per_key_witness :
    lookupKey
      (mergeFields MergePolicy.deep
        [("a", JsonValue.obj [("x", JsonValue.num 1)]), ("b", JsonValue.num 2)]
        [("a", JsonValue.obj [("y", JsonValue.num 3)]), ("b", JsonValue.str "s")]) "a" =
      some (mergeSpecAt
        (lookupKey [("a", JsonValue.obj [("x", JsonValue.num 1)]), ("b", JsonValue.num 2)] "a")
        (JsonValue.obj [("y", JsonValue.num 3)])) :=
  claim3_deep_merge_per_key
    [("a", JsonValue.obj [("y", JsonValue.num 3)]), ("b", JsonValue.str "s")]
    [("a", JsonValue.obj [("x", JsonValue.num 1)]), ("b", JsonValue.num 2)]
    "a" (JsonValue.obj [("y", JsonValue.num 3)]) (by decide) (by rfl)

/-- Claim C4: merging an empty source is the identity, under both the
deep and the shallow policy. -/
theorem claim4_merge_empty_source_identity (policy : MergePolicy)
    (A : List (String × JsonValue)) : mergeFields policy A [] = A := by
  cases policy
  · simp [mergeFields, deepMergeFields]
  · simp [mergeFields, shallowMergeFields]

/-- A heap value: either an immediate (scalar or sequence) JSON value, or
a reference to a plain mapping living in the store.  Used to state the
frame property of the deep merge over an explicit object store. -/
inductive HVal where
  | scalar (v : JsonValue)
  | ref (a : Nat)

/-- An explicit object store: cell `a` holds the fields of one plain
mapping; references in fields point back into the store. -/
structure Heap where
  cells : List (List (String × HVal))

/-- Contents of cell `a`, when allocated. -/
def Heap.cell (h : Heap) (a : Nat) : Option (List (String × HVal)) :=
  h.cells.get? a

/-- Allocate a fresh cell holding `fields`; returns its address. -/
def Heap.alloc (h : Heap) (fields : List (String × HVal)) : Heap × Nat :=
  ({ cells := h.cells ++ [fields] }, h.cells.length)

mutual

/-- Modelled from the spec: the deep policy of the Payload Merge Engine
(missing from this checkout), instrumented with an explicit object store
to express mutation.  It operates on a shallow copy of the target's
fields and allocates a fresh cell for the result; `fuel` bounds the
recursion depth (the engine likewise diverges on cyclic payloads). -/
def deepMergeHeap (fuel : Nat) (h : Heap) (ta sa : Nat) : Option (Heap × Nat) :=
  match fuel with
  | 0 => none
  | fuel' + 1 =>
      match h.cell ta, h.cell sa with
      | some tf, some sf =>
          match mergeFieldsHeap fuel' h tf sf with
          | some (h1, fields) => some (h1.alloc fields)
          | none => none
      | _, _ => none
  termination_by (fuel, 0)
  decreasing_by all_goals (simp_wf; try omega)

/-- Modelled from the spec: one pass of the store-instrumented deep merge
over the source's fields, writing only into the (not yet allocated) copy
of the target's fields. -/
def mergeFieldsHeap (fuel : Nat) (h : Heap) (acc src : List (String × HVal)) :
    Option (Heap × List (String × HVal)) :=
  match src with
  | [] => some (h, acc)
  | (k, v) :: rest =>
      match lookupKey acc k, v with
      | some (HVal.ref ta), HVal.ref sa =>
          match deepMergeHeap fuel h ta sa with
          | some (h1, a) => mergeFieldsHeap fuel h1 (setKey acc k (HVal.ref a)) rest
          | none => none
      | _, _ => mergeFieldsHeap fuel h (setKey acc k v) rest
  termination_by (fuel, src.length + 1)
  decreasing_by all_goals (simp_wf; try omega)

end

/-- `h'` extends `h`: every cell of `h` is intact, new cells only appended. -/
def Heap.ext' (h h' : Heap) : Prop :=
  ∃ l, h'.cells = h.cells ++ l

theorem Heap.ext'_refl (h : Heap) : Heap.ext' h h := ⟨[], by simp⟩

theorem Heap.ext'_trans {h1 h2 h3 : Heap} (a : Heap.ext' h1 h2) (b : Heap.ext' h2 h3) :
    Heap.ext' h1 h3 := by
  obtain ⟨l1, e1⟩ := a
  obtain ⟨l2, e2⟩ := b
  exact ⟨l1 ++ l2, by rw [e2, e1, List.append_assoc]⟩

theorem Heap.ext'_alloc (h : Heap) (fields : List (String × HVal)) :
    Heap.ext' h (h.alloc fields).1 := ⟨[fields], rfl⟩

theorem mergeFieldsHeap_nil (fuel : Nat) (h : Heap) (acc : List (String × HVal)) :
    mergeFieldsHeap fuel h acc [] = some (h, acc) := by
  rw [mergeFieldsHeap.eq_def]

theorem mergeFieldsHeap_cons (fuel : Nat) (h : Heap) (acc : List (String × HVal))
    (k : String) (v : HVal) (rest : List (String × HVal)) :
    mergeFieldsHeap fuel h acc ((k, v) :: rest) =
      match lookupKey acc k, v with
      | some (HVal.ref ta), HVal.ref sa =>
          match deepMergeHeap fuel h ta sa with
          | some (h1, a) => mergeFieldsHeap fuel h1 (setKey acc k (HVal.ref a)) rest
          | none => none
      | _, _ => mergeFieldsHeap fuel h (setKey acc k v) rest := by
  rw [mergeFieldsHeap.eq_def]

theorem deepMergeHeap_zero (h : Heap) (ta sa : Nat) : deepMergeHeap 0 h ta sa = none := by
  rw [deepMergeHeap.eq_def]

theorem deepMergeHeap_succ (fuel' : Nat) (h : Heap) (ta sa : Nat) :
    deepMergeHeap (fuel' + 1) h ta sa =
      match h.cell ta, h.cell sa with
      | some tf, some sf =>
          match mergeFieldsHeap fuel' h tf sf with
          | some (h1, fields) => some (h1.alloc fields)
          | none => none
      | _, _ => none := by
  rw [deepMergeHeap.eq_def]

theorem mergeFieldsHeap_ext (fuel : Nat)
    (hVal : ∀ h ta sa h' a, deepMergeHeap fuel h ta sa = some (h', a) → Heap.ext' h h') :
    ∀ (src : List (String × HVal)) (h : Heap) (acc : List (String × HVal))
      (h' : Heap) (fs : List (String × HVal)),
      mergeFieldsHeap fuel h acc src = some (h', fs) → Heap.ext' h h' := by
  intro src
  induction src with
  | nil =>
      intro h acc h' fs hm
      rw [mergeFieldsHeap_nil] at hm
      cases hm
      exact Heap.ext'_refl _
  | cons hd rest ih =>
      intro h acc h' fs hm
      obtain ⟨k, v⟩ := hd
      rw [mergeFieldsHeap_cons] at hm
      split at hm
      · split at hm
        · rename_i ta sa hl hv h1 a hd1
          exact Heap.ext'_trans (hVal h ta sa h1 a hd1) (ih h1 _ h' fs hm)
        · exact Option.noConfusion hm
      · exact ih h _ h' fs hm

theorem deepMergeHeap_ext (fuel : Nat) :
    ∀ (h : Heap) (ta sa : Nat) (h' : Heap) (a : Nat),
      deepMergeHeap fuel h ta sa = some (h', a) → Heap.ext' h h' := by
  induction fuel with
  | zero =>
      intro h ta sa h' a hm
      rw [deepMergeHeap_zero] at hm
      exact Option.noConfusion hm
  | succ fuel' ih =>
      intro h ta sa h' a hm
      rw [deepMergeHeap_succ] at hm
      rcases ht : h.cell ta with _ | tf
      · rw [ht] at hm
        exact Option.noConfusion hm
      · rw [ht] at hm
        rcases hs : h.cell sa with _ | sf
        · rw [hs] at hm
          exact Option.noConfusion hm
        · rw [hs] at hm
          have hm2 : (match mergeFieldsHeap fuel' h tf sf with
              | some (h1, fields) => some (h1.alloc fields)
              | none => none) = some (h', a) := hm
          rcases hmf : mergeFieldsHeap fuel' h tf sf with _ | p
          · rw [hmf] at hm2
            exact Option.noConfusion hm2
          · obtain ⟨h1, fields⟩ := p
            rw [hmf] at hm2
            have hm3 : some (h1.alloc fields) = some (h', a) := hm2
            have e1 : Heap.ext' h h1 := mergeFieldsHeap_ext fuel' ih sf h tf h1 fields hmf
            have hh : (h1.alloc fields).1 = h' := congrArg Prod.fst (Option.some.inj hm3)
            rw [← hh]
            exact Heap.ext'_trans e1 (Heap.ext'_alloc h1 fields)

/-- Claim C5: the deep merge operates on a shallow copy of the target and
never mutates the original target mapping: whenever the store-instrumented
deep merge completes, every cell that existed before the merge — in
particular the target mapping and every mapping it references — holds
exactly its old contents; the result lives in freshly allocated cells. -/
theorem claim5_deep_merge_no_mutation (fuel : Nat) (h h' : Heap) (ta sa r : Nat)
    (hm : deepMergeHeap fuel h ta sa = some (h', r)) :
    ∀ a, a < h.cells.length → h'.cell a = h.cell a := by
  obtain ⟨l, hl⟩ := deepMergeHeap_ext fuel h ta sa h' r hm
  intro a ha
  simp [Heap.cell, hl, List.getElem?_append_left ha]

/-- A two-cell store: cell 0 is the target mapping, cell 1 the source. -/
def demoHeap : Heap :=
  ⟨[[("k", HVal.scalar JsonValue.null)], [("k", HVal.scalar (JsonValue.bool true))]]⟩

/-- The store after deep-merging cell 1 into cell 0: the result is the
freshly allocated cell 2; cells 0 and 1 are untouched. -/
def demoMergedHeap : Heap :=
  ⟨[[("k", HVal.scalar JsonValue.null)], [("k", HVal.scalar (JsonValue.bool true))],
    [("k", HVal.scalar (JsonValue.bool true))]]⟩

/-- Concrete instance of claim C5: after the merge, the target cell of the
demo store holds exactly its old contents. -/
theorem claim5_deep_merge_no_mutation_witness :
    Heap.cell demoMergedHeap 0 = Heap.cell demoHeap 0 := by
  have hm : deepMergeHeap 2 demoHeap 0 1 = some (demoMergedHeap, 2) := by
    show deepMergeHeap (1 + 1) demoHeap 0 1 = some (demoMergedHeap, 2)
    rw [deepMergeHeap_succ]
    simp [demoHeap, demoMergedHeap, Heap.cell, Heap.alloc, mergeFieldsHeap_cons,
      mergeFieldsHeap_nil, lookupKey, setKey]
  exact claim5_deep_merge_no_mutation 2 demoHeap demoMergedHeap 0 1 2 hm 0 (by decide)

/-- The canonical step-result shape after normalization (the
`ChainStepResponse` contract of `src/unnamed/part_000` with the
normalizer's defaults applied): `step`, `ok`, `message` (default empty),
`data` (default empty mapping). -/
structure StepResult where
  step : String
  ok : Bool
  message : String
  data : List (String × JsonValue)

/-- Modelled from the spec: the Step Response Normalizer (missing from
this checkout) — fails when the raw response is absent, not a structured
object, or a sequence; otherwise extracts `step` (string, else the
fallback step name), `ok` (boolean, else `true`), `message` (string, else
empty) and `data` (mapping, else empty mapping).  The auxiliary
encoded-value wire-format fallback decode is not modelled; no claim
exercises it. -/
def normalize (raw : Option JsonValue) (fallback : String) : Option StepResult :=
  match raw with
  | none => none
  | some (JsonValue.obj fields) =>
      some
        { step :=
            match lookupKey fields "step" with
            | some (JsonValue.str s) => s
            | _ => fallback
          ok :=
            match lookupKey fields "ok" with
            | some (JsonValue.bool b) => b
            | _ => true
          message :=
            match lookupKey fields "message" with
            | some (JsonValue.str m) => m
            | _ => ""
          data :=
            match lookupKey fields "data" with
            | some (JsonValue.obj d) => d
            | _ => [] }
  | some _ => none

/-- Modelled from the spec: the failure value handed to `onError` and the
progress publisher — it references the failing step by name, carries a
diagnostic text and, for explicit non-success statuses, the status. -/
structure ChainError where
  step : String
  error : String
  status : Option Nat

/-- Modelled from the spec: one entry of the per-run history
(`HistoryEntry` of section 3): step name, success flag, measured
round-trip duration, optional message. -/
structure HistoryEntry where
  step : String
  ok : Bool
  durationMs : Nat
  message : Option String

/-- The terminal success value (`ChainCombinedResult` of
`src/unnamed/part_000`): last step's name, `ok`, summary message, merged
final payload and full history. -/
structure ChainCombinedResult where
  step : String
  ok : Bool
  message : String
  final : List (String × JsonValue)
  history : List HistoryEntry

/-- Modelled from the spec: the progress percentage
`round(current/total*100)`, `0` when `total` is `0` (JavaScript
`Math.round` on a non-negative rational, in integer arithmetic). -/
def percentOf (current total : Nat) : Nat :=
  if total = 0 then 0 else (200 * current + total) / (2 * total)

/-- Modelled from the spec: one published state of the process-wide
Progress Publisher (section 4.5). -/
structure ProgressRecord where
  step : String
  current : Nat
  total : Nat
  percent : Nat
  ok : Option Bool
  message : String
  data : Option JsonValue
  error : Option ChainError

/-- Modelled from the spec: `start(step, data?, current, total)` — replaces
the record, computing `percent`, clearing any stale `error` or prior
`ok`. -/
def startStep (step : String) (data : Option JsonValue) (current total : Nat) :
    ProgressRecord :=
  { step := step, current := current, total := total,
    percent := percentOf current total, ok := none, message := "", data := data,
    error := none }

/-- Modelled from the spec: `complete(final)` — replaces the record with
the terminal complete state, `percent = 100`, extracting `ok` and
`message` from the final result and attaching it as `data`. -/
def completeStep (final : ChainCombinedResult) : ProgressRecord :=
  { step := "complete", current := 1, total := 1, percent := 100,
    ok := some final.ok, message := final.message,
    data := some (JsonValue.obj final.final), error := none }

/-- Modelled from the spec: `fail(error)` — replaces the record with the
terminal error state, attaching the failure value verbatim. -/
def failStep (err : ChainError) : ProgressRecord :=
  { step := "error", current := 1, total := 1, percent := 100,
    ok := some false, message := "", data := none, error := some err }

/-- Modelled from the spec: the three outcomes an outbound step call can
have at the transport boundary (section 4.4): the call itself rejects, an
explicit non-success status with a diagnostic body, or a success status
with a decoded body for the Normalizer. -/
inductive StepOutcome where
  | reject (err : String)
  | httpError (status : Nat) (body : String)
  | respond (body : Option JsonValue)

/-- One simulated outbound call: its measured round-trip duration and its
transport outcome. -/
structure StepCall where
  durationMs : Nat
  outcome : StepOutcome

/-- Terminal event of a chain run: `onSuccess` with the combined result,
or `onError` with the failure value — each fired at most once, and never
both. -/
inductive ChainOutcome where
  | success (r : ChainCombinedResult)
  | failure (e : ChainError)

/-- Everything a chain run emits, in order: the `onStep` invocations
(name, 1-based index, total), the published progress records, the history,
the accumulated payload at termination and the terminal event. -/
structure RunTrace where
  onStepCalls : List (String × Nat × Nat)
  progress : List ProgressRecord
  history : List HistoryEntry
  payload : List (String × JsonValue)
  outcome : ChainOutcome

/-- Whether a simulated call, normalized with fallback name `name`,
counts as a fully successful step (transport success, Normalizer accepts,
`ok` is true). -/
def stepOk (name : String) (c : StepCall) : Bool :=
  match c.outcome with
  | StepOutcome.respond raw =>
      match normalize raw name with
      | some r => r.ok
      | none => false
  | _ => false

/-- The normalized `data` fragment a successful call contributes (empty
for failing calls, which never merge). -/
def stepData (name : String) (c : StepCall) : List (String × JsonValue) :=
  match c.outcome with
  | StepOutcome.respond raw =>
      match normalize raw name with
      | some r => r.data
      | none => []
  | _ => []

/-- Modelled from the spec: the `Stepping` loop of the Chain Execution
State Machine (section 4.4).  Arguments: remaining steps (name paired
with the simulated call), current accumulated payload, 1-based index of
the next step, total step count, elapsed duration so far, history so far,
and the name of the last completed step.  Each iteration publishes a
progress start, fires `onStep`, and either folds a successful result's
`data` into the payload via the deep merge and continues, or records the
failing entry, publishes the error state and stops.  When no steps remain
it produces the `ChainCombinedResult` (summary message with step count
and total duration, final payload stamped with the last step's name under
the key `step`) and publishes the complete state. -/
def runSteps : List (String × StepCall) → List (String × JsonValue) → Nat → Nat →
    Nat → List HistoryEntry → String → RunTrace
  | [], payload, _, total, elapsed, hist, lastName =>
      let res : ChainCombinedResult :=
        { step := lastName
          ok := true
          message := "Completed " ++ toString total ++ " chained actions" ++
            " in " ++ toString elapsed ++ "ms."
          final := setKey payload "step" (JsonValue.str lastName)
          history := hist }
      { onStepCalls := [], progress := [completeStep res], history := hist,
        payload := payload, outcome := ChainOutcome.success res }
  | (name, c) :: rest, payload, idx, total, elapsed, hist, _ =>
      let startRec := startStep name (some (JsonValue.obj payload)) idx total
      let d := c.durationMs
      match c.outcome with
      | StepOutcome.reject e =>
          let err : ChainError := { step := name, error := e, status := none }
          let entry : HistoryEntry :=
            { step := name, ok := false, durationMs := d, message := some e }
          { onStepCalls := [(name, idx, total)]
            progress := [startRec, failStep err]
            history := hist ++ [entry]
            payload := payload
            outcome := ChainOutcome.failure err }
      | StepOutcome.httpError st body =>
          let err : ChainError := { step := name, error := body, status := some st }
          let entry : HistoryEntry :=
            { step := name, ok := false, durationMs := d, message := some body }
          { onStepCalls := [(name, idx, total)]
            progress := [startRec, failStep err]
            history := hist ++ [entry]
            payload := payload
            outcome := ChainOutcome.failure err }
      | StepOutcome.respond raw =>
          match normalize raw name with
          | none =>
              let err : ChainError :=
                { step := name, error := "Invalid step response", status := none }
              let entry : HistoryEntry :=
                { step := name, ok := false, durationMs := d, message := none }
              { onStepCalls := [(name, idx, total)]
                progress := [startRec, failStep err]
                history := hist ++ [entry]
                payload := payload
                outcome := ChainOutcome.failure err }
          | some res =>
              let entry : HistoryEntry :=
                { step := res.step, ok := res.ok, durationMs := d,
                  message := some res.message }
              if res.ok then
                let t := runSteps rest (deepMergeFields payload res.data) (idx + 1)
                  total (elapsed + d) (hist ++ [entry]) name
                { onStepCalls := (name, idx, total) :: t.onStepCalls
                  progress := startRec :: t.progress
                  history := t.history
                  payload := t.payload
                  outcome := t.outcome }
              else
                let err : ChainError :=
                  { step := name, error := res.message, status := none }
                { onStepCalls := [(name, idx, total)]
                  progress := [startRec, failStep err]
                  history := hist ++ [entry]
                  payload := payload
                  outcome := ChainOutcome.failure err }

/-- Modelled from the spec: the already-completed first-step result handed
to the engine by the submission collaborator (section 6): either a
structured result to normalize, or a terminal/short-circuit kind on which
the machine aborts before `Stepping`. -/
inductive InitialResult where
  | result (raw : Option JsonValue)
  | aborted (err : String)

/-- Modelled from the spec: the full Chain Execution State Machine
(sections 4.4 and 6): `Seeding` consumes the initial result — aborting to
`Failed` when it is terminal, malformed, or signals failure — then seeds
the accumulated payload with its normalized `data`, publishes the
`initial` progress state with `current = 0, total = 0`, and enters the
`Stepping` loop over the configured step names. -/
def runChain (seed : InitialResult) (steps : List (String × StepCall)) : RunTrace :=
  match seed with
  | InitialResult.aborted e =>
      let err : ChainError := { step := "initial", error := e, status := none }
      { onStepCalls := [], progress := [failStep err], history := [], payload := [],
        outcome := ChainOutcome.failure err }
  | InitialResult.result raw =>
      match normalize raw "initial" with
      | none =>
          let err : ChainError :=
            { step := "initial", error := "Invalid initial result", status := none }
          { onStepCalls := [], progress := [failStep err], history := [], payload := [],
            outcome := ChainOutcome.failure err }
      | some res =>
          if res.ok then
            let t := runSteps steps res.data 1 steps.length 0 [] "initial"
            { t with progress := startStep "initial" none 0 0 :: t.progress }
          else
            let err : ChainError :=
              { step := "initial", error := res.message, status := none }
            { onStepCalls := [], progress := [failStep err], history := [],
              payload := [], outcome := ChainOutcome.failure err }

/-- Whether the seed result lets the machine enter the `Stepping` loop. -/
def seedOk (seed : InitialResult) : Bool :=
  match seed with
  | InitialResult.aborted _ => false
  | InitialResult.result raw =>
      match normalize raw "initial" with
      | some r => r.ok
      | none => false

/-- The normalized `data` of an accepted seed result (the initial
accumulated payload). -/
def seedData (seed : InitialResult) : List (String × JsonValue) :=
  match seed with
  | InitialResult.aborted _ => []
  | InitialResult.result raw =>
      match normalize raw "initial" with
      | some r => r.data
      | none => []

theorem stepOk_true_elim (name : String) (c : StepCall) (h : stepOk name c = true) :
    ∃ raw res, c.outcome = StepOutcome.respond raw ∧ normalize raw name = some res ∧
      res.ok = true ∧ stepData name c = res.data := by
  rcases hc : c.outcome with e | ⟨st, body⟩ | raw
  · rw [stepOk, hc] at h; exact Bool.noConfusion h
  · rw [stepOk, hc] at h; exact Bool.noConfusion h
  · rw [stepOk, hc] at h
    have h2 : (match normalize raw name with
        | some r => r.ok
        | none => false) = true := h
    rcases hn : normalize raw name with _ | res
    · rw [hn] at h2; exact Bool.noConfusion h2
    · rw [hn] at h2
      have h3 : res.ok = true := h2
      refine ⟨raw, res, rfl, hn, h3, ?_⟩
      rw [stepData, hc]
      have h4 : (match normalize raw name with
          | some r => r.data
          | none => ([] : List (String × JsonValue))) = res.data := by rw [hn]
      exact h4

theorem seedOk_true_elim (seed : InitialResult) (h : seedOk seed = true) :
    ∃ raw res, seed = InitialResult.result raw ∧ normalize raw "initial" = some res ∧
      res.ok = true ∧ seedData seed = res.data := by
  rcases seed with raw | e
  · rcases hn : normalize raw "initial" with _ | res
    · rw [seedOk, hn] at h; exact Bool.noConfusion h
    · rw [seedOk, hn] at h
      exact ⟨raw, res, rfl, hn, h, by rw [seedData, hn]⟩
  · rw [seedOk] at h; exact Bool.noConfusion h

/-- The history entry recorded for a successful normalized step. -/
def okEntry (res : StepResult) (d : Nat) : HistoryEntry :=
  { step := res.step, ok := true, durationMs := d, message := some res.message }

theorem runSteps_cons_ok_outcome {name : String} {c : StepCall}
    {rest : List (String × StepCall)} {payload : List (String × JsonValue)}
    {idx total elapsed : Nat} {hist : List HistoryEntry} {last : String}
    {raw : Option JsonValue} {res : StepResult}
    (hc : c.outcome = StepOutcome.respond raw) (hn : normalize raw name = some res)
    (hok : res.ok = true) :
    (runSteps ((name, c) :: rest) payload idx total elapsed hist last).outcome =
      (runSteps rest (deepMergeFields payload res.data) (idx + 1) total
        (elapsed + c.durationMs) (hist ++ [okEntry res c.durationMs]) name).outcome := by
  simp [runSteps, hc, hn, hok, okEntry]

theorem runSteps_cons_ok_history {name : String} {c : StepCall}
    {rest : List (String × StepCall)} {payload : List (String × JsonValue)}
    {idx total elapsed : Nat} {hist : List HistoryEntry} {last : String}
    {raw : Option JsonValue} {res : StepResult}
    (hc : c.outcome = StepOutcome.respond raw) (hn : normalize raw name = some res)
    (hok : res.ok = true) :
    (runSteps ((name, c) :: rest) payload idx total elapsed hist last).history =
      (runSteps rest (deepMergeFields payload res.data) (idx + 1) total
        (elapsed + c.durationMs) (hist ++ [okEntry res c.durationMs]) name).history := by
  simp [runSteps, hc, hn, hok, okEntry]

theorem runSteps_cons_ok_onStepCalls {name : String} {c : StepCall}
    {rest : List (String × StepCall)} {payload : List (String × JsonValue)}
    {idx total elapsed : Nat} {hist : List HistoryEntry} {last : String}
    {raw : Option JsonValue} {res : StepResult}
    (hc : c.outcome = StepOutcome.respond raw) (hn : normalize raw name = some res)
    (hok : res.ok = true) :
    (runSteps ((name, c) :: rest) payload idx total elapsed hist last).onStepCalls =
      (name, idx, total) ::
      (runSteps rest (deepMergeFields payload res.data) (idx + 1) total
        (elapsed + c.durationMs) (hist ++ [okEntry res c.durationMs]) name).onStepCalls := by
  simp [runSteps, hc, hn, hok, okEntry]

theorem runSteps_cons_ok_payload {name : String} {c : StepCall}
    {rest : List (String × StepCall)} {payload : List (String × JsonValue)}
    {idx total elapsed : Nat} {hist : List HistoryEntry} {last : String}
    {raw : Option JsonValue} {res : StepResult}
    (hc : c.outcome = StepOutcome.respond raw) (hn : normalize raw name = some res)
    (hok : res.ok = true) :
    (runSteps ((name, c) :: rest) payload idx total elapsed hist last).payload =
      (runSteps rest (deepMergeFields payload res.data) (idx + 1) total
        (elapsed + c.durationMs) (hist ++ [okEntry res c.durationMs]) name).payload := by
  simp [runSteps, hc, hn, hok, okEntry]

theorem runSteps_cons_ok_progress {name : String} {c : StepCall}
    {rest : List (String × StepCall)} {payload : List (String × JsonValue)}
    {idx total elapsed : Nat} {hist : List HistoryEntry} {last : String}
    {raw : Option JsonValue} {res : StepResult}
    (hc : c.outcome = StepOutcome.respond raw) (hn : normalize raw name = some res)
    (hok : res.ok = true) :
    (runSteps ((name, c) :: rest) payload idx total elapsed hist last).progress =
      startStep name (some (JsonValue.obj payload)) idx total ::
      (runSteps rest (deepMergeFields payload res.data) (idx + 1) total
        (elapsed + c.durationMs) (hist ++ [okEntry res c.durationMs]) name).progress := by
  simp [runSteps, hc, hn, hok, okEntry]

theorem runSteps_cons_fail_shape (name : String) (c : StepCall)
    (rest : List (String × StepCall)) (payload : List (String × JsonValue))
    (idx total elapsed : Nat) (hist : List HistoryEntry) (last : String)
    (hfail : stepOk name c = false) :
    ∃ en er, en.durationMs = c.durationMs ∧ en.ok = false ∧ er.step = name ∧
      runSteps ((name, c) :: rest) payload idx total elapsed hist last =
        { onStepCalls := [(name, idx, total)]
          progress := [startStep name (some (JsonValue.obj payload)) idx total,
            failStep er]
          history := hist ++ [en]
          payload := payload
          outcome := ChainOutcome.failure er } := by
  rcases hc : c.outcome with e | ⟨st, body⟩ | raw
  · exact ⟨{ step := name, ok := false, durationMs := c.durationMs, message := some e },
      { step := name, error := e, status := none }, rfl, rfl, rfl,
      by simp [runSteps, hc]⟩
  · exact ⟨{ step := name, ok := false, durationMs := c.durationMs, message := some body },
      { step := name, error := body, status := some st }, rfl, rfl, rfl,
      by simp [runSteps, hc]⟩
  · rcases hn : normalize raw name with _ | res
    · exact ⟨{ step := name, ok := false, durationMs := c.durationMs, message := none },
        { step := name, error := "Invalid step response", status := none }, rfl, rfl, rfl,
        by simp [runSteps, hc, hn]⟩
    · have hro : res.ok = false := by
        rw [stepOk, hc] at hfail
        have h2 : (match normalize raw name with
            | some r => r.ok
            | none => false) = false := hfail
        rw [hn] at h2
        exact h2
      refine ⟨{ step := res.step, ok := res.ok, durationMs := c.durationMs, message := some res.message }, { step := name, error := res.message, status := none }, rfl, hro, rfl, ?_⟩
      simp [runSteps, hc, hn, hro]

theorem runSteps_fail :
    ∀ (pre : List (String × StepCall)) (nm : String) (c : StepCall)
      (post : List (String × StepCall)) (payload : List (String × JsonValue))
      (idx total elapsed : Nat) (hist : List HistoryEntry) (last : String),
      (∀ s ∈ pre, stepOk s.1 s.2 = true) → stepOk nm c = false →
      ∃ e,
        (runSteps (pre ++ (nm, c) :: post) payload idx total elapsed hist last).outcome =
          ChainOutcome.failure e ∧
        e.step = nm ∧
        (runSteps (pre ++ (nm, c) :: post) payload idx total elapsed hist last).history.length =
          hist.length + pre.length + 1 ∧
        (runSteps (pre ++ (nm, c) :: post) payload idx total elapsed hist last).onStepCalls.length =
          pre.length + 1 ∧
        (runSteps (pre ++ (nm, c) :: post) payload idx total elapsed hist last).payload =
          pre.foldl (fun acc s => deepMergeFields acc (stepData s.1 s.2)) payload := by
  intro pre
  induction pre with
  | nil =>
      intro nm c post payload idx total elapsed hist last _ hfail
      obtain ⟨en, er, _, _, hs, heq⟩ :=
        runSteps_cons_fail_shape nm c post payload idx total elapsed hist last hfail
      rw [List.nil_append, heq]
      exact ⟨er, rfl, hs, by simp, by simp, by simp⟩
  | cons hd pre' ih =>
      intro nm c post payload idx total elapsed hist last hpre hfail
      obtain ⟨n0, c0⟩ := hd
      have h0 : stepOk n0 c0 = true := hpre (n0, c0) (by simp)
      obtain ⟨raw0, res0, hc0, hn0, hok0, hdata0⟩ := stepOk_true_elim n0 c0 h0
      have hpre' : ∀ s ∈ pre', stepOk s.1 s.2 = true :=
        fun s hs => hpre s (by simp [hs])
      obtain ⟨e, houtc, hstep, hhist, honstep, hpay⟩ :=
        ih nm c post (deepMergeFields payload res0.data) (idx + 1) total
          (elapsed + c0.durationMs) (hist ++ [okEntry res0 c0.durationMs]) n0 hpre' hfail
      rw [List.cons_append]
      refine ⟨e, ?_, hstep, ?_, ?_, ?_⟩
      · rw [runSteps_cons_ok_outcome hc0 hn0 hok0]
        exact houtc
      · rw [runSteps_cons_ok_history hc0 hn0 hok0, hhist]
        simp only [List.length_append, List.length_cons, List.length_nil]
        omega
      · rw [runSteps_cons_ok_onStepCalls hc0 hn0 hok0]
        simp only [List.length_cons, honstep]
      · rw [runSteps_cons_ok_payload hc0 hn0 hok0, hpay]
        simp [hdata0]

theorem runChain_ok_outcome {seed : InitialResult} {raw : Option JsonValue}
    {res : StepResult} (hs : seed = InitialResult.result raw)
    (hn : normalize raw "initial" = some res) (hok : res.ok = true)
    (steps : List (String × StepCall)) :
    (runChain seed steps).outcome =
      (runSteps steps res.data 1 steps.length 0 [] "initial").outcome := by
  subst hs; simp [runChain, hn, hok]

theorem runChain_ok_history {seed : InitialResult} {raw : Option JsonValue}
    {res : StepResult} (hs : seed = InitialResult.result raw)
    (hn : normalize raw "initial" = some res) (hok : res.ok = true)
    (steps : List (String × StepCall)) :
    (runChain seed steps).history =
      (runSteps steps res.data 1 steps.length 0 [] "initial").history := by
  subst hs; simp [runChain, hn, hok]

theorem runChain_ok_onStepCalls {seed : InitialResult} {raw : Option JsonValue}
    {res : StepResult} (hs : seed = InitialResult.result raw)
    (hn : normalize raw "initial" = some res) (hok : res.ok = true)
    (steps : List (String × StepCall)) :
    (runChain seed steps).onStepCalls =
      (runSteps steps res.data 1 steps.length 0 [] "initial").onStepCalls := by
  subst hs; simp [runChain, hn, hok]

theorem runChain_ok_payload {seed : InitialResult} {raw : Option JsonValue}
    {res : StepResult} (hs : seed = InitialResult.result raw)
    (hn : normalize raw "initial" = some res) (hok : res.ok = true)
    (steps : List (String × StepCall)) :
    (runChain seed steps).payload =
      (runSteps steps res.data 1 steps.length 0 [] "initial").payload := by
  subst hs; simp [runChain, hn, hok]

theorem runChain_ok_progress {seed : InitialResult} {raw : Option JsonValue}
    {res : StepResult} (hs : seed = InitialResult.result raw)
    (hn : normalize raw "initial" = some res) (hok : res.ok = true)
    (steps : List (String × StepCall)) :
    (runChain seed steps).progress =
      startStep "initial" none 0 0 ::
        (runSteps steps res.data 1 steps.length 0 [] "initial").progress := by
  subst hs; simp [runChain, hn, hok]

/-- Claim C1: with steps `1..k-1` succeeding and step `k` failing (by
transport rejection, non-success status, a response the Normalizer
rejects, or a well-formed `ok:false`), the chain stops without attempting
later steps: the terminal event is a single `onError` whose value
references step `k` by name, `onSuccess` never fires, the history has
exactly `k` entries, exactly `k` steps were attempted, and step `k`'s
`data` is never merged into the accumulated payload. -/
theorem claim1_chain_stops_on_failure (seed : InitialResult)
    (pre : List (String × StepCall)) (nm : String) (c : StepCall)
    (post : List (String × StepCall))
    (hseed : seedOk seed = true)
    (hpre : ∀ s ∈ pre, stepOk s.1 s.2 = true)
    (hfail : stepOk nm c = false) :
    (∃ e, (runChain seed (pre ++ (nm, c) :: post)).outcome = ChainOutcome.failure e ∧
      e.step = nm) ∧
    (∀ r, (runChain seed (pre ++ (nm, c) :: post)).outcome ≠ ChainOutcome.success r) ∧
    (runChain seed (pre ++ (nm, c) :: post)).history.length = pre.length + 1 ∧
    (runChain seed (pre ++ (nm, c) :: post)).onStepCalls.length = pre.length + 1 ∧
    (runChain seed (pre ++ (nm, c) :: post)).payload =
      pre.foldl (fun acc s => deepMergeFields acc (stepData s.1 s.2)) (seedData seed) := by
  obtain ⟨raw, res, hsr, hn, hok, hsd⟩ := seedOk_true_elim seed hseed
  obtain ⟨e, houtc, hstep, hhist, honstep, hpay⟩ :=
    runSteps_fail pre nm c post res.data 1 (pre ++ (nm, c) :: post).length 0 [] "initial"
      hpre hfail
  have hRC : (runChain seed (pre ++ (nm, c) :: post)).outcome = ChainOutcome.failure e := by
    rw [runChain_ok_outcome hsr hn hok]
    exact houtc
  refine ⟨⟨e, hRC, hstep⟩, ?_, ?_, ?_, ?_⟩
  · intro r hr
    rw [hRC] at hr
    exact ChainOutcome.noConfusion hr
  · rw [runChain_ok_history hsr hn hok, hhist]
    simp
  · rw [runChain_ok_onStepCalls hsr hn hok, honstep]
  · rw [runChain_ok_payload hsr hn hok, hpay, hsd]

/-- A seed result that normalizes successfully with empty data. -/
def demoSeedOk : InitialResult := InitialResult.result (some (JsonValue.obj []))

/-- A step call that succeeds with empty data (the normalizer defaults
`ok` to `true`). -/
def demoOkCall : StepCall := ⟨1, StepOutcome.respond (some (JsonValue.obj []))⟩

/-- A step call whose well-formed response carries `ok:false`. -/
def demoFailCall : StepCall :=
  ⟨2, StepOutcome.respond (some (JsonValue.obj [("ok", JsonValue.bool false)]))⟩

/-- Concrete instance of claim C1: with step 2 of 3 failing, the history
has exactly 2 entries. -/
theorem claim1_chain_stops_on_failure_witness :
    (runChain demoSeedOk
      ([("s1", demoOkCall)] ++ ("s2", demoFailCall) :: [("s3", demoOkCall)])).history.length =
      [("s1", demoOkCall)].length + 1 :=
  (claim1_chain_stops_on_failure demoSeedOk [("s1", demoOkCall)] "s2" demoFailCall
    [("s3", demoOkCall)] (by rfl)
    (by intro s hs; rw [List.mem_singleton] at hs; subst hs; rfl)
    (by rfl)).2.2.1

theorem runSteps_ok :
    ∀ (steps : List (String × StepCall)) (payload : List (String × JsonValue))
      (idx total elapsed : Nat) (hist : List HistoryEntry) (last : String),
      (∀ s ∈ steps, stepOk s.1 s.2 = true) →
      ∃ r,
        (runSteps steps payload idx total elapsed hist last).outcome =
          ChainOutcome.success r ∧
        r.ok = true ∧
        r.step = steps.foldl (fun _ s => s.1) last ∧
        r.history = (runSteps steps payload idx total elapsed hist last).history ∧
        r.history.length = hist.length + steps.length ∧
        r.final = setKey
          (steps.foldl (fun acc s => deepMergeFields acc (stepData s.1 s.2)) payload)
          "step" (JsonValue.str (steps.foldl (fun _ s => s.1) last)) ∧
        r.message = "Completed " ++ toString total ++ " chained actions" ++ " in " ++
          toString (elapsed + (steps.map (fun s => s.2.durationMs)).sum) ++ "ms." := by
  intro steps
  induction steps with
  | nil =>
      intro payload idx total elapsed hist last _
      exact ⟨_, rfl, rfl, rfl, rfl, by simp, rfl, by simp⟩
  | cons hd rest ih =>
      intro payload idx total elapsed hist last hok
      obtain ⟨n0, c0⟩ := hd
      have h0 : stepOk n0 c0 = true := hok (n0, c0) (by simp)
      obtain ⟨raw0, res0, hc0, hn0, hok0, hdata0⟩ := stepOk_true_elim n0 c0 h0
      have hrest : ∀ s ∈ rest, stepOk s.1 s.2 = true :=
        fun s hs => hok s (by simp [hs])
      obtain ⟨r, houtc, hr1, hr2, hr3, hr4, hr5, hr6⟩ :=
        ih (deepMergeFields payload res0.data) (idx + 1) total (elapsed + c0.durationMs)
          (hist ++ [okEntry res0 c0.durationMs]) n0 hrest
      refine ⟨r, ?_, hr1, ?_, ?_, ?_, ?_, ?_⟩
      · rw [runSteps_cons_ok_outcome hc0 hn0 hok0]
        exact houtc
      · rw [hr2]
        simp
      · rw [runSteps_cons_ok_history hc0 hn0 hok0]
        exact hr3
      · rw [hr4]
        simp only [List.length_append, List.length_cons, List.length_nil]
        omega
      · rw [hr5]
        simp [hdata0]
      · rw [hr6]
        have : elapsed + c0.durationMs + (rest.map (fun s => s.2.durationMs)).sum =
            elapsed + (((n0, c0) :: rest).map (fun s => s.2.durationMs)).sum := by
          simp
          omega
        rw [this]

theorem foldl_last_name :
    ∀ (l : List (String × StepCall)) (a : String) (h : l ≠ []),
      l.foldl (fun _ s => s.1) a = (l.getLast h).1 := by
  intro l
  induction l with
  | nil => intro a h; exact absurd rfl h
  | cons x rest ih =>
      intro a h
      cases rest with
      | nil => simp [List.getLast]
      | cons y r =>
          rw [List.foldl_cons, List.getLast_cons (by simp)]
          exact ih x.1 (by simp)

theorem runSteps_success_all_ok :
    ∀ (steps : List (String × StepCall)) (payload : List (String × JsonValue))
      (idx total elapsed : Nat) (hist : List HistoryEntry) (last : String)
      (r : ChainCombinedResult),
      (runSteps steps payload idx total elapsed hist last).outcome =
        ChainOutcome.success r →
      ∀ s ∈ steps, stepOk s.1 s.2 = true := by
  intro steps
  induction steps with
  | nil => intro _ _ _ _ _ _ _ _ s hs; exact absurd hs (by simp)
  | cons hd rest ih =>
      intro payload idx total elapsed hist last r hsucc s hs
      obtain ⟨n0, c0⟩ := hd
      by_cases h0 : stepOk n0 c0 = true
      · obtain ⟨raw0, res0, hc0, hn0, hok0, _⟩ := stepOk_true_elim n0 c0 h0
        rw [runSteps_cons_ok_outcome hc0 hn0 hok0] at hsucc
        rcases List.mem_cons.mp hs with h | h
        · subst h; exact h0
        · exact ih _ _ _ _ _ _ r hsucc s h
      · have h0' : stepOk n0 c0 = false := by
          cases hb : stepOk n0 c0
          · rfl
          · exact absurd hb h0
        obtain ⟨en, er, _, _, _, heq⟩ :=
          runSteps_cons_fail_shape n0 c0 rest payload idx total elapsed hist last h0'
        rw [heq] at hsucc
        exact absurd hsucc (by simp)

theorem runChain_success_all_ok (seed : InitialResult)
    (steps : List (String × StepCall)) (r : ChainCombinedResult)
    (hsucc : (runChain seed steps).outcome = ChainOutcome.success r) :
    seedOk seed = true ∧ ∀ s ∈ steps, stepOk s.1 s.2 = true := by
  rcases hseed : seed with raw | e
  · rcases hn : normalize raw "initial" with _ | res
    · rw [hseed] at hsucc
      simp [runChain, hn] at hsucc
    · rcases hok : res.ok with _ | _
      · rw [hseed] at hsucc
        simp [runChain, hn, hok] at hsucc
      · constructor
        · rw [seedOk, hn]; exact hok
        · rw [runChain_ok_outcome hseed hn hok] at hsucc
          exact runSteps_success_all_ok steps res.data 1 steps.length 0 [] "initial" r hsucc
  · rw [hseed] at hsucc
    simp [runChain] at hsucc

/-- Claim C2: when every configured step returns `ok:true`, the terminal
event is a single `onSuccess` carrying a `ChainCombinedResult` with
`ok:true`, a history of exactly `N` entries, `step` equal to the name of
step `N`, `final` equal to the last accumulated payload stamped with the
last step's name under the key `step`, and a message containing the
literal substring `Completed N chained actions`; and this terminal shape
is produced only on full success, never on failure. -/
theorem claim2_success_terminal_shape (seed : InitialResult)
    (steps : List (String × StepCall)) (hne : steps ≠ [])
    (hseed : seedOk seed = true)
    (hall : ∀ s ∈ steps, stepOk s.1 s.2 = true) :
    (∃ r, (runChain seed steps).outcome = ChainOutcome.success r ∧
      r.ok = true ∧
      r.history.length = steps.length ∧
      r.step = (steps.getLast hne).1 ∧
      r.final = setKey
        (steps.foldl (fun acc s => deepMergeFields acc (stepData s.1 s.2)) (seedData seed))
        "step" (JsonValue.str (steps.getLast hne).1) ∧
      (∃ tail, r.message =
        ("Completed " ++ toString steps.length ++ " chained actions") ++ tail) ∧
      (∀ e, (runChain seed steps).outcome ≠ ChainOutcome.failure e)) ∧
    (∀ (seed' : InitialResult) (steps' : List (String × StepCall))
      (r' : ChainCombinedResult),
      (runChain seed' steps').outcome = ChainOutcome.success r' →
      seedOk seed' = true ∧ ∀ s ∈ steps', stepOk s.1 s.2 = true) := by
  refine ⟨?_, fun seed' steps' r' h => runChain_success_all_ok seed' steps' r' h⟩
  obtain ⟨raw, res, hsr, hn, hok, hsd⟩ := seedOk_true_elim seed hseed
  obtain ⟨r, houtc, hr1, hr2, hr3, hr4, hr5, hr6⟩ :=
    runSteps_ok steps res.data 1 steps.length 0 [] "initial" hall
  have hRC : (runChain seed steps).outcome = ChainOutcome.success r := by
    rw [runChain_ok_outcome hsr hn hok]
    exact houtc
  refine ⟨r, hRC, hr1, ?_, ?_, ?_, ?_, ?_⟩
  · rw [hr4]
    simp
  · rw [hr2, foldl_last_name steps "initial" hne]
  · rw [hr5, foldl_last_name steps "initial" hne, hsd]
  · refine ⟨" in " ++ toString (0 + (steps.map (fun s => s.2.durationMs)).sum) ++ "ms.", ?_⟩
    rw [hr6]
    simp [String.append_assoc]
    rw [show (" chained actions in " : String) = " chained actions" ++ " in " from rfl,
      String.append_assoc]
  · intro e he
    rw [hRC] at he
    exact ChainOutcome.noConfusion he

/-- Concrete instance of claim C2: a two-step chain succeeding end to
end produces the terminal success shape. -/
theorem claim2_success_terminal_shape_witness :
    ∃ r, (runChain demoSeedOk [("s1", demoOkCall), ("s2", demoOkCall)]).outcome =
        ChainOutcome.success r ∧
      r.ok = true ∧
      r.history.length = [("s1", demoOkCall), ("s2", demoOkCall)].length ∧
      r.step = ([("s1", demoOkCall), ("s2", demoOkCall)].getLast (by simp)).1 ∧
      r.final = setKey
        ([("s1", demoOkCall), ("s2", demoOkCall)].foldl
          (fun acc s => deepMergeFields acc (stepData s.1 s.2)) (seedData demoSeedOk))
        "step" (JsonValue.str ([("s1", demoOkCall), ("s2", demoOkCall)].getLast (by simp)).1) ∧
      (∃ tail, r.message =
        ("Completed " ++ toString [("s1", demoOkCall), ("s2", demoOkCall)].length ++
          " chained actions") ++ tail) ∧
      (∀ e, (runChain demoSeedOk [("s1", demoOkCall), ("s2", demoOkCall)]).outcome ≠
        ChainOutcome.failure e) :=
  (claim2_success_terminal_shape demoSeedOk [("s1", demoOkCall), ("s2", demoOkCall)]
    (by simp) (by rfl)
    (by
      intro s hs
      rcases List.mem_cons.mp hs with h | h
      · subst h; rfl
      · rw [List.mem_singleton] at h; subst h; rfl)).1

theorem runChain_seed_fail (seed : InitialResult) (steps : List (String × StepCall))
    (h : seedOk seed = false) :
    ∃ er, runChain seed steps =
      { onStepCalls := [], progress := [failStep er], history := [], payload := [],
        outcome := ChainOutcome.failure er } := by
  rcases seed with raw | e
  · rcases hn : normalize raw "initial" with _ | res
    · exact ⟨{ step := "initial", error := "Invalid initial result", status := none },
        by simp [runChain, hn]⟩
    · have hok : res.ok = false := by simpa [seedOk, hn] using h
      exact ⟨{ step := "initial", error := res.message, status := none },
        by simp [runChain, hn, hok]⟩
  · exact ⟨{ step := "initial", error := e, status := none }, by simp [runChain]⟩

theorem runSteps_history_shape :
    ∀ (steps : List (String × StepCall)) (payload : List (String × JsonValue))
      (idx total elapsed : Nat) (hist : List HistoryEntry) (last : String),
      ∃ newE : List HistoryEntry,
        (runSteps steps payload idx total elapsed hist last).history = hist ++ newE ∧
        newE.length =
          (runSteps steps payload idx total elapsed hist last).onStepCalls.length ∧
        newE.map (fun en => en.durationMs) =
          (steps.take newE.length).map (fun s => s.2.durationMs) ∧
        newE.map (fun en => en.ok) =
          (steps.take newE.length).map (fun s => stepOk s.1 s.2) ∧
        (runSteps steps payload idx total elapsed hist last).onStepCalls.map
            (fun x => x.1) =
          (steps.take newE.length).map Prod.fst := by
  intro steps
  induction steps with
  | nil =>
      intro payload idx total elapsed hist last
      exact ⟨[], by simp [runSteps], by simp [runSteps], by simp, by simp,
        by simp [runSteps]⟩
  | cons hd rest ih =>
      intro payload idx total elapsed hist last
      obtain ⟨n0, c0⟩ := hd
      by_cases h0 : stepOk n0 c0 = true
      · obtain ⟨raw0, res0, hc0, hn0, hok0, _⟩ := stepOk_true_elim n0 c0 h0
        obtain ⟨newE, he1, he2, he3, he4, he5⟩ :=
          ih (deepMergeFields payload res0.data) (idx + 1) total (elapsed + c0.durationMs)
            (hist ++ [okEntry res0 c0.durationMs]) n0
        refine ⟨okEntry res0 c0.durationMs :: newE, ?_, ?_, ?_, ?_, ?_⟩
        · rw [runSteps_cons_ok_history hc0 hn0 hok0, he1]
          simp
        · rw [runSteps_cons_ok_onStepCalls hc0 hn0 hok0]
          simp [he2]
        · simp only [List.length_cons, List.take_succ_cons, List.map_cons, he3]
          rfl
        · simp only [List.length_cons, List.take_succ_cons, List.map_cons, he4]
          simp [okEntry, h0]
        · rw [runSteps_cons_ok_onStepCalls hc0 hn0 hok0]
          simp only [List.length_cons, List.take_succ_cons, List.map_cons, he5]
      · have h0' : stepOk n0 c0 = false := by
          cases hb : stepOk n0 c0
          · rfl
          · exact absurd hb h0
        obtain ⟨en, er, hdur, hok', _, heq⟩ :=
          runSteps_cons_fail_shape n0 c0 rest payload idx total elapsed hist last h0'
        refine ⟨[en], ?_, ?_, ?_, ?_, ?_⟩
        · rw [heq]
        · rw [heq]
          rfl
        · simp [hdur]
        · simp [hok', h0']
        · rw [heq]
          simp

/-- Claim C6: every chain run records exactly one HistoryEntry per
attempted step (one per `onStep` invocation, including a failing step),
each entry carrying the step's success flag and its measured round-trip
duration, in invocation order — the recorded flags and durations are
exactly those of the first `k` configured steps, never reordered or
dropped. -/
theorem claim6_history_per_attempted_step (seed : InitialResult)
    (steps : List (String × StepCall)) :
    (runChain seed steps).history.length = (runChain seed steps).onStepCalls.length ∧
    (runChain seed steps).history.map (fun en => en.durationMs) =
      (steps.take (runChain seed steps).history.length).map (fun s => s.2.durationMs) ∧
    (runChain seed steps).history.map (fun en => en.ok) =
      (steps.take (runChain seed steps).history.length).map (fun s => stepOk s.1 s.2) ∧
    (runChain seed steps).onStepCalls.map (fun x => x.1) =
      (steps.take (runChain seed steps).history.length).map Prod.fst := by
  cases hs : seedOk seed
  · obtain ⟨er, heq⟩ := runChain_seed_fail seed steps hs
    rw [heq]
    simp
  · obtain ⟨raw, res, hsr, hn, hok, _⟩ := seedOk_true_elim seed hs
    obtain ⟨newE, he1, he2, he3, he4, he5⟩ :=
      runSteps_history_shape steps res.data 1 steps.length 0 [] "initial"
    rw [runChain_ok_history hsr hn hok, runChain_ok_onStepCalls hsr hn hok, he1]
    simp only [List.nil_append]
    exact ⟨he2, he3, he4, he5⟩

theorem percentOf_mono (c c' t : Nat) (h : c ≤ c') : percentOf c t ≤ percentOf c' t := by
  unfold percentOf
  by_cases ht : t = 0
  · simp [ht]
  · simp only [ht, if_false]
    exact Nat.div_le_div_right (by omega)

theorem percentOf_le_100 (c t : Nat) (h : c ≤ t) : percentOf c t ≤ 100 := by
  unfold percentOf
  by_cases ht : t = 0
  · simp [ht]
  · simp only [ht, if_false]
    have h2 : (200 * c + t) / (2 * t) < 101 := by
      rw [Nat.div_lt_iff_lt_mul (by omega)]
      omega
    omega

theorem runSteps_progress_ok :
    ∀ (steps : List (String × StepCall)) (payload : List (String × JsonValue))
      (idx total elapsed : Nat) (hist : List HistoryEntry) (last : String),
      (∀ s ∈ steps, stepOk s.1 s.2 = true) →
      ∃ (r : ChainCombinedResult) (pre : List ProgressRecord),
        (runSteps steps payload idx total elapsed hist last).progress =
          pre ++ [completeStep r] ∧
        (runSteps steps payload idx total elapsed hist last).progress.map
            (fun p => p.percent) =
          ((List.range steps.length).map (fun j => percentOf (idx + j) total)) ++ [100] := by
  intro steps
  induction steps with
  | nil =>
      intro payload idx total elapsed hist last _
      exact ⟨_, [], rfl, by simp [runSteps, completeStep]⟩
  | cons hd rest ih =>
      intro payload idx total elapsed hist last hall
      obtain ⟨n0, c0⟩ := hd
      have h0 : stepOk n0 c0 = true := hall (n0, c0) (by simp)
      obtain ⟨raw0, res0, hc0, hn0, hok0, _⟩ := stepOk_true_elim n0 c0 h0
      have hrest : ∀ s ∈ rest, stepOk s.1 s.2 = true :=
        fun s hs => hall s (by simp [hs])
      obtain ⟨r, pre', hpr, hmap⟩ :=
        ih (deepMergeFields payload res0.data) (idx + 1) total (elapsed + c0.durationMs)
          (hist ++ [okEntry res0 c0.durationMs]) n0 hrest
      refine ⟨r, startStep n0 (some (JsonValue.obj payload)) idx total :: pre', ?_, ?_⟩
      · rw [runSteps_cons_ok_progress hc0 hn0 hok0, hpr]
        rfl
      · rw [runSteps_cons_ok_progress hc0 hn0 hok0]
        simp only [List.map_cons, hmap, List.length_cons, List.range_succ_eq_map,
          List.map_map]
        have harg : (fun j => percentOf (idx + 1 + j) total) =
            ((fun j => percentOf (idx + j) total) ∘ Nat.succ) := by
          funext j
          simp only [Function.comp]
          rw [show idx + 1 + j = idx + Nat.succ j from by omega]
        rw [harg]
        simp [startStep]

/-- Claim C7 (amended): across the progress states published during a
single successful run, `percent` is monotonically non-decreasing, and the
run terminates in the `complete` state, whose `percent` is exactly
`100`.  (As stated, the claim also required `percent = 100` to occur
*only* at or after the complete state; the publication that begins the
final step already carries `percent = 100`, see the counterexample.) -/
theorem claim7_progress_monotone_amended (seed : InitialResult)
    (steps : List (String × StepCall)) (hseed : seedOk seed = true)
    (hall : ∀ s ∈ steps, stepOk s.1 s.2 = true) :
    List.Chain' (· ≤ ·) ((runChain seed steps).progress.map (fun p => p.percent)) ∧
    (∃ r pre, (runChain seed steps).progress = pre ++ [completeStep r] ∧
      (completeStep r).step = "complete" ∧ (completeStep r).percent = 100) := by
  obtain ⟨raw, res, hsr, hn, hok, _⟩ := seedOk_true_elim seed hseed
  obtain ⟨r, pre', hpr, hmap⟩ :=
    runSteps_progress_ok steps res.data 1 steps.length 0 [] "initial" hall
  constructor
  · rw [runChain_ok_progress hsr hn hok]
    simp only [List.map_cons, hmap]
    apply List.Pairwise.chain'
    apply List.pairwise_cons.mpr
    refine ⟨fun b _ => Nat.zero_le b, ?_⟩
    apply List.pairwise_append.mpr
    refine ⟨?_, by simp, ?_⟩
    · refine List.Pairwise.map (fun j => percentOf (1 + j) steps.length) ?_
        (List.pairwise_lt_range steps.length)
      intro a b hab
      exact percentOf_mono (1 + a) (1 + b) steps.length (by omega)
    · intro a ha b hb
      rw [List.mem_singleton] at hb
      subst hb
      obtain ⟨j, hj, rfl⟩ := List.mem_map.mp ha
      rw [List.mem_range] at hj
      exact percentOf_le_100 _ _ (by omega)
  · exact ⟨r, startStep "initial" none 0 0 :: pre', by
      rw [runChain_ok_progress hsr hn hok, hpr]; rfl, rfl, rfl⟩

/-- Concrete instance of amended claim C7: the percents published by a
one-step successful run are non-decreasing. -/
theorem claim7_progress_monotone_amended_witness :
    List.Chain' (· ≤ ·)
      ((runChain demoSeedOk [("s1", demoOkCall)]).progress.map (fun p => p.percent)) :=
  (claim7_progress_monotone_amended demoSeedOk [("s1", demoOkCall)] (by rfl)
    (by intro s hs; rw [List.mem_singleton] at hs; subst hs; rfl)).1

/-- The property claim C7 states: a published percent of `100` occurs
only at or after a published `complete` state. -/
def percentOnlyAtOrAfterComplete (l : List ProgressRecord) : Prop :=
  ∀ i, ∀ hi : i < l.length, (l.get ⟨i, hi⟩).percent = 100 →
    ∃ j, ∃ hj : j < l.length, j ≤ i ∧ (l.get ⟨j, hj⟩).step = "complete"

/-- Refutation of claim C7 as stated: in a successful one-step run, the
progress state published at the start of the final step already carries
`percent = 100` while the `complete` state has not yet been published. -/
theorem claim7_counterexample :
    ¬ percentOnlyAtOrAfterComplete
      ((runChain demoSeedOk [("s1", demoOkCall)]).progress) := by
  intro hcl
  have hp : ∃ z, (runChain demoSeedOk [("s1", demoOkCall)]).progress =
      [startStep "initial" none 0 0, startStep "s1" (some (JsonValue.obj [])) 1 1, z] := by
    rw [@runChain_ok_progress demoSeedOk (some (JsonValue.obj []))
        ⟨"initial", true, "", []⟩ rfl rfl rfl [("s1", demoOkCall)],
      show ({ step := "initial", ok := true, message := "", data := [] } : StepResult).data =
        ([] : List (String × JsonValue)) from rfl,
      show [("s1", demoOkCall)].length = 1 from rfl,
      @runSteps_cons_ok_progress "s1" demoOkCall [] [] 1 1 0 [] "initial"
        (some (JsonValue.obj [])) ⟨"s1", true, "", []⟩ rfl rfl rfl]
    exact ⟨_, rfl⟩
  obtain ⟨z, hp⟩ := hp
  rw [hp] at hcl
  have h100 : (([startStep "initial" none 0 0,
      startStep "s1" (some (JsonValue.obj [])) 1 1, z].get ⟨1, by simp⟩)).percent = 100 := by
    show (startStep "s1" (some (JsonValue.obj [])) 1 1).percent = 100
    simp [startStep, percentOf]
  obtain ⟨j, hj, hle, hstep⟩ := hcl 1 (by simp) h100
  interval_cases j
  · exact absurd hstep (by simp [startStep])
  · exact absurd hstep (by simp [startStep])

/-- One multipart form field as the demo server actions receive it:
either a plain string value or an uploaded file (with its name). -/
inductive FormVal where
  | str (s : String)
  | file (name : String)

/-- `formData.get(k)`: first value bound to field `k`, or null. -/
def formGet (form : List (String × FormVal)) (k : String) : Option FormVal :=
  lookupKey form k

/-- `formData.get(k)?.toString()`: string fields verbatim; a `File`
stringifies to its object tag. -/
def formGetStr (form : List (String × FormVal)) (k : String) : Option String :=
  match lookupKey form k with
  | some (FormVal.str s) => some s
  | some (FormVal.file _) => some "[object File]"
  | none => none

/-- `data.get('__previous')?.toString() || '{}'` — the string the demo
actions parse; an absent field (and the falsy empty string) falls back to
the literal `"{}"`. -/
def getPrevString (form : List (String × FormVal)) : String :=
  match formGetStr form "__previous" with
  | some s => if s = "" then "{}" else s
  | none => "{}"

/-- Result of JavaScript property access `prev.k`: a thrown TypeError
(on null), `undefined`, or the value. -/
inductive JsAccess where
  | jsThrow
  | undef
  | val (v : JsonValue)

/-- JavaScript property access on a parsed JSON value: throws on `null`,
yields `undefined` on non-objects and missing keys. -/
def jsGet : JsonValue → String → JsAccess
  | JsonValue.null, _ => JsAccess.jsThrow
  | JsonValue.obj fs, k =>
      match lookupKey fs k with
      | some v => JsAccess.val v
      | none => JsAccess.undef
  | _, _ => JsAccess.undef

/-- JavaScript truthiness of a JSON value. -/
def jsTruthy : JsonValue → Bool
  | JsonValue.null => false
  | JsonValue.bool b => b
  | JsonValue.num n => decide (n ≠ 0)
  | JsonValue.str s => decide (s ≠ "")
  | JsonValue.arr _ => true
  | JsonValue.obj _ => true

/-- Property access with throw propagation, `undefined` as `none`. -/
def jsAccessE (prev : JsonValue) (k : String) : Except String (Option JsonValue) :=
  match jsGet prev k with
  | JsAccess.jsThrow => Except.error "TypeError"
  | JsAccess.undef => Except.ok none
  | JsAccess.val v => Except.ok (some v)

/-- JavaScript string coercion of a scalar JSON value (a sequence at this
depth is approximated; no demo value nests sequences in messages). -/
def jsDisplayAtom : JsonValue → String
  | JsonValue.null => "null"
  | JsonValue.bool true => "true"
  | JsonValue.bool false => "false"
  | JsonValue.num n => toString n
  | JsonValue.str s => s
  | JsonValue.arr _ => ""
  | JsonValue.obj _ => "[object Object]"

/-- JavaScript string coercion: a sequence displays as the comma-join of
its elements' coercions, other values as their scalar coercion. -/
def jsDisplay : JsonValue → String
  | JsonValue.arr es => String.intercalate "," (es.map jsDisplayAtom)
  | v => jsDisplayAtom v

/-- Template-string interpolation of a possibly-undefined access. -/
def jsTemplate (a : Option JsonValue) : String :=
  match a with
  | none => "undefined"
  | some v => jsDisplay v

/-- A JSON value for a possibly-undefined member (`undefined` is modelled
as JSON null, its value under JSON serialization). -/
def optJson (a : Option JsonValue) : JsonValue := a.getD JsonValue.null

/-- JavaScript whitespace class of the `\s` regex (ASCII part; the demo
strings contain no exotic whitespace). -/
def isJsWs (c : Char) : Bool :=
  c = ' ' || c = '\t' || c = '\n' || c = '\r' || c = '\x0b' || c = '\x0c'

/-- `s.split(/\s+/)` — split at maximal whitespace runs; a leading or
trailing run contributes an empty piece, and the empty string yields
one empty piece.  The boolean tracks whether the previous character was
whitespace (so a run is consumed once). -/
def splitWsAux : List Char → String → Bool → List String
  | [], cur, _ => [cur]
  | c :: cs, cur, prevWs =>
      if isJsWs c then
        if prevWs then splitWsAux cs cur true
        else cur :: splitWsAux cs "" true
      else splitWsAux cs (cur.push c) false

/-- `s.split(/\s+/)` on a string. -/
def splitWs (s : String) : List String := splitWsAux s.data "" false

/-- `s.slice(0, n)`. -/
def jsSlice (s : String) (n : Nat) : String := String.mk (s.data.take n)

def isJsonWsChar (c : Char) : Bool := c = ' ' || c = '\t' || c = '\n' || c = '\r'

def parseLit : List Char → List Char → Option (List Char)
  | [], cs => some cs
  | l :: ls, c :: cs => if c = l then parseLit ls cs else none
  | _ :: _, [] => none

def parseStringBody : List Char → Option (String × List Char)
  | [] => none
  | c :: cs =>
      if c = '"' then some ("", cs)
      else match parseStringBody cs with
        | some (s, rest) => some (String.mk (c :: s.data), rest)
        | none => none

def digitsToNat (ds : List Char) : Nat :=
  ds.foldl (fun n c => n * 10 + (c.toNat - 48)) 0

mutual

/-- `JSON.parse`, as the demo actions apply it to `__previous`: a
recursive-descent reading of one JSON value (objects, sequences, strings
without escape sequences, integers, literals), fuel-bounded by input
length.  Escape sequences and fractional numbers are not modelled; the
claims only parse the default string and quantify over already-parsed
payloads. -/
def parseVal : Nat → List Char → Option (JsonValue × List Char)
  | 0, _ => none
  | fuel + 1, cs0 =>
      match cs0.dropWhile isJsonWsChar with
      | [] => none
      | c :: rest =>
          if c = '{' then parseMembers fuel (rest.dropWhile isJsonWsChar) []
          else if c = '[' then parseElems fuel (rest.dropWhile isJsonWsChar) []
          else if c = '"' then
            match parseStringBody rest with
            | some (s, r) => some (JsonValue.str s, r)
            | none => none
          else if c = 't' then
            match parseLit ['r', 'u', 'e'] rest with
            | some r => some (JsonValue.bool true, r)
            | none => none
          else if c = 'f' then
            match parseLit ['a', 'l', 's', 'e'] rest with
            | some r => some (JsonValue.bool false, r)
            | none => none
          else if c = 'n' then
            match parseLit ['u', 'l', 'l'] rest with
            | some r => some (JsonValue.null, r)
            | none => none
          else if c = '-' then
            match rest.takeWhile Char.isDigit with
            | [] => none
            | ds => some (JsonValue.num (-(Int.ofNat (digitsToNat ds))),
                rest.dropWhile Char.isDigit)
          else if c.isDigit then
            some (JsonValue.num (Int.ofNat (digitsToNat ((c :: rest).takeWhile Char.isDigit))),
              (c :: rest).dropWhile Char.isDigit)
          else none

/-- Members of a JSON object (after the opening brace). -/
def parseMembers : Nat → List Char → List (String × JsonValue) →
    Option (JsonValue × List Char)
  | 0, _, _ => none
  | fuel + 1, cs, acc =>
      match cs with
      | '}' :: rest => some (JsonValue.obj acc, rest)
      | '"' :: rest =>
          match parseStringBody rest with
          | none => none
          | some (k, r1) =>
              match r1.dropWhile isJsonWsChar with
              | ':' :: r2 =>
                  match parseVal fuel r2 with
                  | none => none
                  | some (v, r3) =>
                      match r3.dropWhile isJsonWsChar with
                      | ',' :: r4 => parseMembers fuel (r4.dropWhile isJsonWsChar)
                          (acc ++ [(k, v)])
                      | '}' :: r4 => some (JsonValue.obj (acc ++ [(k, v)]), r4)
                      | _ => none
              | _ => none
      | _ => none

/-- Elements of a JSON sequence (after the opening bracket). -/
def parseElems : Nat → List Char → List JsonValue → Option (JsonValue × List Char)
  | 0, _, _ => none
  | fuel + 1, cs, acc =>
      match cs with
      | ']' :: rest => some (JsonValue.arr acc, rest)
      | _ =>
          match parseVal fuel cs with
          | none => none
          | some (v, r1) =>
              match r1.dropWhile isJsonWsChar with
              | ',' :: r2 => parseElems fuel (r2.dropWhile isJsonWsChar) (acc ++ [v])
              | ']' :: r2 => some (JsonValue.arr (acc ++ [v]), r2)
              | _ => none

end

/-- `JSON.parse` of a whole string: one value, then only whitespace. -/
def jsonParse (s : String) : Except String JsonValue :=
  match parseVal (s.length + 2) s.data with
  | some (v, rest) =>
      if rest.dropWhile isJsonWsChar = [] then Except.ok v
      else Except.error "Unexpected non-whitespace character after JSON data"
  | none => Except.error "Unexpected token in JSON"

/-- The shape every demo server action returns (`ChainStepResponse`). -/
structure ServerResponse where
  step : String
  ok : Bool
  message : String
  data : JsonValue

/-- The word-count expression of the first-variant markdown action
(`src/src/routes/+page.server.ts`, line 37):
`prev.description ? prev.description.split(/\s+/).length : 0`; `none`
models a thrown TypeError (property access on null, or `.split` on a
truthy non-string). -/
def wordCount1 (prev : JsonValue) : Option Nat :=
  match jsGet prev "description" with
  | JsAccess.jsThrow => none
  | JsAccess.undef => some 0
  | JsAccess.val v =>
      if jsTruthy v then
        match v with
        | JsonValue.str s => some (splitWs s).length
        | _ => none
      else some 0

/-- The description expression of the second-variant markdown action
(`src/src/routes/+page.server.ts`, line 135): `prev.description ?? ''`,
failing where the action would throw (null payload, or a later `.split`
or `.slice` on a non-string). -/
def descriptionOf (prev : JsonValue) : Except String String :=
  match jsGet prev "description" with
  | JsAccess.jsThrow => Except.error "TypeError"
  | JsAccess.undef => Except.ok ""
  | JsAccess.val JsonValue.null => Except.ok ""
  | JsAccess.val (JsonValue.str s) => Except.ok s
  | JsAccess.val _ => Except.error "TypeError"

/-- The word-count expression of the second-variant markdown action
(`src/src/routes/+page.server.ts`, line 136):
`(prev.description ?? '').split(/\s+/).length`. -/
def wordCount2 (prev : JsonValue) : Option Nat :=
  match descriptionOf prev with
  | Except.ok s => some (splitWs s).length
  | Except.error _ => none

/-- `upload` action, first variant (`+page.server.ts` lines 4-29). -/
def uploadAction1 (form : List (String × FormVal)) : Except String ServerResponse :=
  let title := formGetStr form "title"
  let featuredImageName :=
    match formGet form "featuredImage" with
    | some (FormVal.file n) => n
    | _ => "no-file"
  Except.ok
      { step := "upload", ok := true, message := "File uploaded successfully"
        data := JsonValue.obj [("title", optJson (title.map JsonValue.str)),
            ("featuredImageName", JsonValue.str featuredImageName)] }

/-- Body of the `markdown` action, first variant (lines 31-46), after
`__previous` is parsed. -/
def markdownStep1 (prev : JsonValue) : Except String ServerResponse :=
  match wordCount1 prev with
  | some wc => Except.ok
      { step := "markdown", ok := true
        message := "Markdown processed"
        data := JsonValue.obj [("wordCount", JsonValue.num (Int.ofNat wc))] }
  | none => Except.error "TypeError"

/-- `markdown` action, first variant (lines 31-46). -/
def markdownAction1 (form : List (String × FormVal)) : Except String ServerResponse := do
  let prev ← jsonParse (getPrevString form)
  markdownStep1 prev

/-- Body of the `seo` action, first variant (lines 48-66). -/
def seoStep1 (prev : JsonValue) : Except String ServerResponse := do
  let t ← jsAccessE prev "title"
  let a ← jsAccessE prev "abstract"
  Except.ok
      { step := "seo", ok := true, message := "SEO metadata generated"
        data := JsonValue.obj [("meta", JsonValue.obj
            [("title", optJson t), ("description", optJson a),
            ("keywords", JsonValue.arr
            [JsonValue.str "svelte", JsonValue.str "chain", JsonValue.str "form"])])] }

/-- `seo` action, first variant (lines 48-66). -/
def seoAction1 (form : List (String × FormVal)) : Except String ServerResponse := do
  let prev ← jsonParse (getPrevString form)
  seoStep1 prev

/-- Body of the `save` action, first variant (lines 68-83); the random
project id and the timestamp are oracle inputs. -/
def saveStep1 (uuid timestamp : String) (_prev : JsonValue) :
    Except String ServerResponse :=
  Except.ok
      { step := "save", ok := true, message := "Project saved to database"
        data := JsonValue.obj [("projectId", JsonValue.str uuid),
            ("timestamp", JsonValue.str timestamp)] }

/-- `save` action, first variant (lines 68-83). -/
def saveAction1 (uuid timestamp : String) (form : List (String × FormVal)) :
    Except String ServerResponse := do
  let prev ← jsonParse (getPrevString form)
  saveStep1 uuid timestamp prev

/-- Body of the `publish` action, first variant (lines 85-97). -/
def publishStep1 (prev : JsonValue) : Except String ServerResponse := do
  let t ← jsAccessE prev "title"
  Except.ok
      { step := "publish", ok := true
        message := "Project \"" ++ jsTemplate t ++ "\" published successfully!"
        data := JsonValue.obj [] }

/-- `publish` action, first variant (lines 85-97). -/
def publishAction1 (form : List (String × FormVal)) : Except String ServerResponse := do
  let prev ← jsonParse (getPrevString form)
  publishStep1 prev

/-- `upload` action, second variant (lines 103-126). -/
def uploadAction2 (form : List (String × FormVal)) : Except String ServerResponse :=
  let title := formGetStr form "title"
  let abstract := formGetStr form "abstract"
  let description := formGetStr form "description"
  let featuredImageName :=
    match formGet form "featuredImage" with
    | some (FormVal.file n) => n
    | _ => "no-file"
  Except.ok
      { step := "upload", ok := true, message := "File uploaded successfully"
        data := JsonValue.obj [("title", optJson (title.map JsonValue.str)),
            ("abstract", optJson (abstract.map JsonValue.str)),
            ("description", optJson (description.map JsonValue.str)),
            ("featuredImageName", JsonValue.str featuredImageName)] }

/-- Body of the `markdown` action, second variant (lines 129-148):
`description = prev.description ?? ''`, word count from its whitespace
split, `abstract = prev.abstract || description.slice(0, 150)`. -/
def markdownStep2 (prev : JsonValue) : Except String ServerResponse := do
  let descriptionStr ← descriptionOf prev
  let a ← jsAccessE prev "abstract"
  let abstractVal : JsonValue :=
    match a with
    | some v => if jsTruthy v then v else JsonValue.str (jsSlice descriptionStr 150)
    | none => JsonValue.str (jsSlice descriptionStr 150)
  Except.ok
      { step := "markdown", ok := true, message := "Markdown processed"
        data := JsonValue.obj
            [("wordCount", JsonValue.num (Int.ofNat (splitWs descriptionStr).length)),
            ("abstract", abstractVal)] }

/-- `markdown` action, second variant (lines 129-148). -/
def markdownAction2 (form : List (String × FormVal)) : Except String ServerResponse := do
  let prev ← jsonParse (getPrevString form)
  markdownStep2 prev

/-- Body of the `seo` action, second variant (lines 151-169):
`description: prev.abstract || prev.description`. -/
def seoStep2 (prev : JsonValue) : Except String ServerResponse := do
  let t ← jsAccessE prev "title"
  let a ← jsAccessE prev "abstract"
  let d ← jsAccessE prev "description"
  let descVal : JsonValue :=
    match a with
    | some v => if jsTruthy v then v else optJson d
    | none => optJson d
  Except.ok
      { step := "seo", ok := true, message := "SEO metadata generated"
        data := JsonValue.obj [("meta", JsonValue.obj
            [("title", optJson t), ("description", descVal),
            ("keywords", JsonValue.arr
            [JsonValue.str "svelte", JsonValue.str "chain", JsonValue.str "form"])])] }

/-- `seo` action, second variant (lines 151-169). -/
def seoAction2 (form : List (String × FormVal)) : Except String ServerResponse := do
  let prev ← jsonParse (getPrevString form)
  seoStep2 prev

/-- `save` action, second variant (lines 172-184): reads no form data. -/
def saveAction2 (uuid timestamp : String) : Except String ServerResponse :=
  Except.ok
      { step := "save", ok := true, message := "Project saved to database"
        data := JsonValue.obj [("projectId", JsonValue.str uuid),
            ("timestamp", JsonValue.str timestamp)] }

/-- Body of the `publish` action, second variant (lines 187-201). -/
def publishStep2 (prev : JsonValue) : Except String ServerResponse := do
  let t ← jsAccessE prev "title"
  let wc ← jsAccessE prev "wordCount"
  let wcDisp : String :=
    match wc with
    | some JsonValue.null => jsDisplay (JsonValue.num 0)
    | some v => jsDisplay v
    | none => jsDisplay (JsonValue.num 0)
  Except.ok
      { step := "publish", ok := true
        message := "Project \"" ++ jsTemplate t ++ "\" published successfully!"
        data := JsonValue.obj [("summary", JsonValue.str
            ("Published \"" ++ jsTemplate t ++ "\" (" ++ wcDisp ++ " words)"))] }

/-- `publish` action, second variant (lines 187-201). -/
def publishAction2 (form : List (String × FormVal)) : Except String ServerResponse := do
  let prev ← jsonParse (getPrevString form)
  publishStep2 prev

theorem exceptBind_ok {α β : Type} (x : Except String α) (f : α → Except String β)
    (b : β) (h : (x >>= f) = Except.ok b) : ∃ a, x = Except.ok a ∧ f a = Except.ok b := by
  cases x with
  | error e => simp [Bind.bind, Except.bind] at h
  | ok a => exact ⟨a, rfl, by simpa [Bind.bind, Except.bind] using h⟩

/-- Claim C8: every demo server action (upload, markdown, seo, save,
publish, in both variants), whenever it returns a result, stamps its
`step` field with the name of the invoked action. -/
theorem claim8_step_matches_action :
    (∀ (form : List (String × FormVal)) (r : ServerResponse),
      uploadAction1 form = Except.ok r → r.step = "upload") ∧
    (∀ (form : List (String × FormVal)) (r : ServerResponse),
      markdownAction1 form = Except.ok r → r.step = "markdown") ∧
    (∀ (form : List (String × FormVal)) (r : ServerResponse),
      seoAction1 form = Except.ok r → r.step = "seo") ∧
    (∀ (uuid ts : String) (form : List (String × FormVal)) (r : ServerResponse),
      saveAction1 uuid ts form = Except.ok r → r.step = "save") ∧
    (∀ (form : List (String × FormVal)) (r : ServerResponse),
      publishAction1 form = Except.ok r → r.step = "publish") ∧
    (∀ (form : List (String × FormVal)) (r : ServerResponse),
      uploadAction2 form = Except.ok r → r.step = "upload") ∧
    (∀ (form : List (String × FormVal)) (r : ServerResponse),
      markdownAction2 form = Except.ok r → r.step = "markdown") ∧
    (∀ (form : List (String × FormVal)) (r : ServerResponse),
      seoAction2 form = Except.ok r → r.step = "seo") ∧
    (∀ (uuid ts : String) (r : ServerResponse),
      saveAction2 uuid ts = Except.ok r → r.step = "save") ∧
    (∀ (form : List (String × FormVal)) (r : ServerResponse),
      publishAction2 form = Except.ok r → r.step = "publish") := by
  refine ⟨?_, ?_, ?_, ?_, ?_, ?_, ?_, ?_, ?_, ?_⟩
  · intro form r h
    have hr := Except.ok.inj h
    subst hr
    rfl
  · intro form r h
    obtain ⟨prev, _, h2⟩ := exceptBind_ok _ _ _ h
    rcases hw : wordCount1 prev with _ | wc
    · have h3 := h2
      unfold markdownStep1 at h3
      rw [hw] at h3
      exact Except.noConfusion h3
    · have h3 := h2
      unfold markdownStep1 at h3
      rw [hw] at h3
      have hr := Except.ok.inj h3
      subst hr
      rfl
  · intro form r h
    obtain ⟨prev, _, h2⟩ := exceptBind_ok _ _ _ h
    obtain ⟨t, _, h3⟩ := exceptBind_ok _ _ _ h2
    obtain ⟨a, _, h4⟩ := exceptBind_ok _ _ _ h3
    have hr := Except.ok.inj h4
    subst hr
    rfl
  · intro uuid ts form r h
    obtain ⟨prev, _, h2⟩ := exceptBind_ok _ _ _ h
    have hr := Except.ok.inj h2
    subst hr
    rfl
  · intro form r h
    obtain ⟨prev, _, h2⟩ := exceptBind_ok _ _ _ h
    obtain ⟨t, _, h3⟩ := exceptBind_ok _ _ _ h2
    have hr := Except.ok.inj h3
    subst hr
    rfl
  · intro form r h
    have hr := Except.ok.inj h
    subst hr
    rfl
  · intro form r h
    obtain ⟨prev, _, h2⟩ := exceptBind_ok _ _ _ h
    obtain ⟨d, _, h3⟩ := exceptBind_ok _ _ _ h2
    obtain ⟨a, _, h4⟩ := exceptBind_ok _ _ _ h3
    have hr := Except.ok.inj h4
    subst hr
    rfl
  · intro form r h
    obtain ⟨prev, _, h2⟩ := exceptBind_ok _ _ _ h
    obtain ⟨t, _, h3⟩ := exceptBind_ok _ _ _ h2
    obtain ⟨a, _, h4⟩ := exceptBind_ok _ _ _ h3
    obtain ⟨d, _, h5⟩ := exceptBind_ok _ _ _ h4
    have hr := Except.ok.inj h5
    subst hr
    rfl
  · intro uuid ts r h
    have hr := Except.ok.inj h
    subst hr
    rfl
  · intro form r h
    obtain ⟨prev, _, h2⟩ := exceptBind_ok _ _ _ h
    obtain ⟨t, _, h3⟩ := exceptBind_ok _ _ _ h2
    obtain ⟨wc, _, h4⟩ := exceptBind_ok _ _ _ h3
    have hr := Except.ok.inj h4
    subst hr
    rfl

/-- Result of the first-variant upload action on an empty form. -/
def uploadDemoRes1 : ServerResponse :=
  { step := "upload", ok := true, message := "File uploaded successfully"
    data := JsonValue.obj [("title", JsonValue.null),
      ("featuredImageName", JsonValue.str "no-file")] }

/-- Result of the first-variant markdown action on an empty form. -/
def markdownDemoRes1 : ServerResponse :=
  { step := "markdown", ok := true, message := "Markdown processed"
    data := JsonValue.obj [("wordCount", JsonValue.num 0)] }

/-- Result of the first-variant seo action on an empty form. -/
def seoDemoRes1 : ServerResponse :=
  { step := "seo", ok := true, message := "SEO metadata generated"
    data := JsonValue.obj [("meta", JsonValue.obj
      [("title", JsonValue.null), ("description", JsonValue.null),
       ("keywords", JsonValue.arr [JsonValue.str "svelte", JsonValue.str "chain",
         JsonValue.str "form"])])] }

/-- Result of the save actions with oracle id `u` and timestamp `t`. -/
def saveDemoRes : ServerResponse :=
  { step := "save", ok := true, message := "Project saved to database"
    data := JsonValue.obj [("projectId", JsonValue.str "u"),
      ("timestamp", JsonValue.str "t")] }

/-- Result of the first-variant publish action on an empty form. -/
def publishDemoRes1 : ServerResponse :=
  { step := "publish", ok := true
    message := "Project \"undefined\" published successfully!"
    data := JsonValue.obj [] }

/-- Result of the second-variant upload action on an empty form. -/
def uploadDemoRes2 : ServerResponse :=
  { step := "upload", ok := true, message := "File uploaded successfully"
    data := JsonValue.obj [("title", JsonValue.null), ("abstract", JsonValue.null),
      ("description", JsonValue.null), ("featuredImageName", JsonValue.str "no-file")] }

/-- Result of the second-variant markdown action on an empty form. -/
def markdownDemoRes2 : ServerResponse :=
  { step := "markdown", ok := true, message := "Markdown processed"
    data := JsonValue.obj [("wordCount", JsonValue.num 1),
      ("abstract", JsonValue.str "")] }

/-- Result of the second-variant seo action on an empty form. -/
def seoDemoRes2 : ServerResponse :=
  { step := "seo", ok := true, message := "SEO metadata generated"
    data := JsonValue.obj [("meta", JsonValue.obj
      [("title", JsonValue.null), ("description", JsonValue.null),
       ("keywords", JsonValue.arr [JsonValue.str "svelte", JsonValue.str "chain",
         JsonValue.str "form"])])] }

/-- Result of the second-variant publish action on an empty form. -/
def publishDemoRes2 : ServerResponse :=
  { step := "publish", ok := true
    message := "Project \"undefined\" published successfully!"
    data := JsonValue.obj [("summary", JsonValue.str
      "Published \"undefined\" (0 words)")] }

/-- Concrete instance of claim C8: each action invoked on an empty form
returns a result stamped with the action's own name. -/
theorem claim8_step_matches_action_witness :
    (uploadAction1 [] = Except.ok uploadDemoRes1 ∧ uploadDemoRes1.step = "upload") ∧
    (markdownAction1 [] = Except.ok markdownDemoRes1 ∧
      markdownDemoRes1.step = "markdown") ∧
    (seoAction1 [] = Except.ok seoDemoRes1 ∧ seoDemoRes1.step = "seo") ∧
    (saveAction1 "u" "t" [] = Except.ok saveDemoRes ∧ saveDemoRes.step = "save") ∧
    (publishAction1 [] = Except.ok publishDemoRes1 ∧
      publishDemoRes1.step = "publish") ∧
    (uploadAction2 [] = Except.ok uploadDemoRes2 ∧ uploadDemoRes2.step = "upload") ∧
    (markdownAction2 [] = Except.ok markdownDemoRes2 ∧
      markdownDemoRes2.step = "markdown") ∧
    (seoAction2 [] = Except.ok seoDemoRes2 ∧ seoDemoRes2.step = "seo") ∧
    (saveAction2 "u" "t" = Except.ok saveDemoRes ∧ saveDemoRes.step = "save") ∧
    (publishAction2 [] = Except.ok publishDemoRes2 ∧
      publishDemoRes2.step = "publish") :=
  ⟨⟨rfl, claim8_step_matches_action.1 [] uploadDemoRes1 rfl⟩,
   ⟨rfl, claim8_step_matches_action.2.1 [] markdownDemoRes1 rfl⟩,
   ⟨rfl, claim8_step_matches_action.2.2.1 [] seoDemoRes1 rfl⟩,
   ⟨rfl, claim8_step_matches_action.2.2.2.1 "u" "t" [] saveDemoRes rfl⟩,
   ⟨rfl, claim8_step_matches_action.2.2.2.2.1 [] publishDemoRes1 rfl⟩,
   ⟨rfl, claim8_step_matches_action.2.2.2.2.2.1 [] uploadDemoRes2 rfl⟩,
   ⟨rfl, claim8_step_matches_action.2.2.2.2.2.2.1 [] markdownDemoRes2 rfl⟩,
   ⟨rfl, claim8_step_matches_action.2.2.2.2.2.2.2.1 [] seoDemoRes2 rfl⟩,
   ⟨rfl, claim8_step_matches_action.2.2.2.2.2.2.2.2.1 "u" "t" saveDemoRes rfl⟩,
   ⟨rfl, claim8_step_matches_action.2.2.2.2.2.2.2.2.2 [] publishDemoRes2 rfl⟩⟩

/-- Claim C9: when the `__previous` form field is absent, every non-first
demo action (markdown, seo, save, publish, both variants) parses the
default string `"{}"`, so it runs on the empty mapping, and returns a
result with `ok:true` instead of throwing. -/
theorem claim9_absent_previous_returns_ok (form : List (String × FormVal))
    (uuid ts : String) (habs : formGetStr form "__previous" = none) :
    markdownAction1 form = markdownStep1 (JsonValue.obj []) ∧
    (∃ r, markdownAction1 form = Except.ok r ∧ r.ok = true) ∧
    seoAction1 form = seoStep1 (JsonValue.obj []) ∧
    (∃ r, seoAction1 form = Except.ok r ∧ r.ok = true) ∧
    saveAction1 uuid ts form = saveStep1 uuid ts (JsonValue.obj []) ∧
    (∃ r, saveAction1 uuid ts form = Except.ok r ∧ r.ok = true) ∧
    publishAction1 form = publishStep1 (JsonValue.obj []) ∧
    (∃ r, publishAction1 form = Except.ok r ∧ r.ok = true) ∧
    markdownAction2 form = markdownStep2 (JsonValue.obj []) ∧
    (∃ r, markdownAction2 form = Except.ok r ∧ r.ok = true) ∧
    seoAction2 form = seoStep2 (JsonValue.obj []) ∧
    (∃ r, seoAction2 form = Except.ok r ∧ r.ok = true) ∧
    (∃ r, saveAction2 uuid ts = Except.ok r ∧ r.ok = true) ∧
    publishAction2 form = publishStep2 (JsonValue.obj []) ∧
    (∃ r, publishAction2 form = Except.ok r ∧ r.ok = true) := by
  have hg : getPrevString form = "{}" := by simp [getPrevString, habs]
  have hkey : ∀ f : JsonValue → Except String ServerResponse,
      (jsonParse (getPrevString form) >>= f) = f (JsonValue.obj []) := by
    intro f
    rw [hg]
    rfl
  exact ⟨hkey _, ⟨_, (hkey _).trans rfl, rfl⟩,
    hkey _, ⟨_, (hkey _).trans rfl, rfl⟩,
    hkey _, ⟨_, (hkey _).trans rfl, rfl⟩,
    hkey _, ⟨_, (hkey _).trans rfl, rfl⟩,
    hkey _, ⟨_, (hkey _).trans rfl, rfl⟩,
    hkey _, ⟨_, (hkey _).trans rfl, rfl⟩,
    ⟨_, rfl, rfl⟩,
    hkey _, ⟨_, (hkey _).trans rfl, rfl⟩⟩

/-- Concrete instance of claim C9: on the empty form (no `__previous`),
the first-variant markdown action runs on the empty mapping. -/
theorem claim9_absent_previous_returns_ok_witness :
    markdownAction1 [] = markdownStep1 (JsonValue.obj []) :=
  (claim9_absent_previous_returns_ok [] "u" "t" rfl).1

/-- Refutation of claim C10 as stated: on a payload without a
`description` field, the first markdown variant computes word count `0`
while the second computes `1` (the empty string splits into one empty
piece). -/
theorem claim10_counterexample :
    wordCount1 (JsonValue.obj []) = some 0 ∧
    wordCount2 (JsonValue.obj []) = some 1 ∧
    wordCount1 (JsonValue.obj []) ≠ wordCount2 (JsonValue.obj []) :=
  ⟨rfl, rfl, fun hcontra => by
    rw [show wordCount1 (JsonValue.obj []) = some 0 from rfl,
      show wordCount2 (JsonValue.obj []) = some 1 from rfl] at hcontra
    exact absurd (Option.some.inj hcontra) (by decide)⟩

/-- Claim C10 (amended): the two markdown variants compute the same
`wordCount` exactly when the payload's `description` is a nonempty
string; when it is absent, null, or the empty string, the first variant
returns `0` while the second returns `1`. -/
theorem claim10_wordcount_amended :
    (∀ (prev : JsonValue) (s : String),
      jsGet prev "description" = JsAccess.val (JsonValue.str s) → s ≠ "" →
      wordCount1 prev = wordCount2 prev) ∧
    (∀ prev : JsonValue,
      (jsGet prev "description" = JsAccess.undef ∨
       jsGet prev "description" = JsAccess.val JsonValue.null ∨
       jsGet prev "description" = JsAccess.val (JsonValue.str "")) →
      wordCount1 prev = some 0 ∧ wordCount2 prev = some 1) := by
  constructor
  · intro prev s hd hs
    rw [wordCount1, wordCount2, descriptionOf, hd]
    simp [jsTruthy, hs]
  · intro prev hd
    rcases hd with hd | hd | hd <;>
      rw [wordCount1, wordCount2, descriptionOf, hd] <;> exact ⟨rfl, rfl⟩

/-- Concrete instance of amended claim C10: the variants agree on a
nonempty description and disagree, `0` versus `1`, on a payload
without one. -/
theorem claim10_wordcount_amended_witness :
    wordCount1 (JsonValue.obj [("description", JsonValue.str "hi")]) =
      wordCount2 (JsonValue.obj [("description", JsonValue.str "hi")]) ∧
    wordCount1 (JsonValue.obj []) = some 0 ∧
    wordCount2 (JsonValue.obj []) = some 1 :=
  ⟨claim10_wordcount_amended.1 (JsonValue.obj [("description", JsonValue.str "hi")])
      "hi" rfl (by decide),
    claim10_wordcount_amended.2 (JsonValue.obj []) (Or.inl rfl)⟩
